import Mathlib

/-!
# Window bootstrap of `demo/main/main.js`

A shallow embedding of the Electron main-process script `demo/main/main.js`.

The script does three things:

* line 3 reads the packaging flag of the host (`isDev = !app.isPackaged`);
* lines 5-27, run when `app.whenReady()` resolves, construct one
  `BrowserWindow` from a literal options object and issue one content load;
* lines 29-32 register a `ready-to-show` listener that calls `maximize()`
  and then `show()`.

The host runtime (Electron, Node) is not part of the repository.  It is
modelled by the record `Host` (what the script reads from it) and by a small
event machine (`step`) in which the host delivers signals only while no
callback of the script is running, and a running callback performs its host
calls one at a time.
-/

namespace CameraSettings

/-! ## Data -/

/-- The `webPreferences` object literal, lines 13-19. -/
structure WebPreferences where
  sandbox : Bool
  nodeIntegration : Bool
  nodeIntegrationInWorker : Bool
  webSecurity : Bool
  contextIsolation : Bool
deriving DecidableEq, Repr

/-- The options object passed to `new BrowserWindow`, lines 6-20.  The key
`show` of the source is the field `show_` here.  Keys the host understands but
the literal may leave out are optional: `resizable` is such a key. -/
structure WindowOptions where
  width : Nat
  height : Nat
  minWidth : Nat
  minHeight : Nat
  show_ : Bool
  maximizable : Bool
  resizable : Option Bool
  webPreferences : WebPreferences
deriving DecidableEq, Repr

/-- The object literal of lines 6-20.  It has no `resizable` key. -/
def browserWindowOptions : WindowOptions :=
  { width := 1000
    height := 680
    minWidth := 810
    minHeight := 600
    show_ := false
    maximizable := true
    resizable := none
    webPreferences :=
      { sandbox := false
        nodeIntegration := true
        nodeIntegrationInWorker := true
        webSecurity := false
        contextIsolation := false } }

/-- What the script reads from the host: `app.isPackaged`, `__dirname`, the
library function `path.join`, and one fact of the window toolkit that the
script cannot observe, whether `maximize()` on a hidden window also displays
it (Electron documents that it does; the development holds either way). -/
structure Host where
  isPackaged : Bool
  dirname : String
  join : List String → String
  maximizeShows : Bool

/-- Line 3: `const isDev = !app.isPackaged`. -/
def isDev (h : Host) : Bool := !h.isPackaged

/-- A call of the script into the host.  `on event` is `mainWindow.on(event,
listener)` with the one listener the script has, that of lines 29-32;
`showWindow` is `mainWindow.show()`. -/
inductive Call where
  | newBrowserWindow (opts : WindowOptions)
  | loadURL (url : String)
  | loadFile (path : String)
  | on (event : String)
  | maximize
  | showWindow
deriving DecidableEq, Repr

/-- Lines 23-27: the content load chosen by `isDev`. -/
def loadCall (h : Host) : Call :=
  if isDev h then Call.loadURL "http://localhost:5173"
  else Call.loadFile (h.join [h.dirname, "..", "dist", "index.html"])

/-- Lines 6-32: the body of the callback given to `app.whenReady().then`, as
the sequence of host calls it performs.  The body has one branch (the `if` at
line 23) and no loop, and no call's result is used. -/
def whenReadyCallback (h : Host) : List Call :=
  [Call.newBrowserWindow browserWindowOptions, loadCall h, Call.on "ready-to-show"]

/-- Lines 30-31: the body of the `ready-to-show` listener. -/
def readyToShowHandler : List Call := [Call.maximize, Call.showWindow]

/-! ## The host machine -/

/-- What a window displays. -/
inductive ContentSource where
  | url (u : String)
  | file (p : String)
deriving DecidableEq, Repr

/-- The host's view of the window bound to `mainWindow`. -/
structure Window where
  options : WindowOptions
  visible : Bool
  maximized : Bool
  content : Option ContentSource
  listeners : List String
deriving DecidableEq, Repr

/-- A signal of the host to the script. -/
inductive Signal where
  | runtimeReady
  | windowEvent (name : String)
  | loadSettled (ok : Bool)
deriving DecidableEq, Repr

/-- The state of a run: whether `app.whenReady()` has resolved, the window
bound to `mainWindow`, the calls the running callback still has to perform,
and the calls performed so far, oldest first. -/
structure State where
  ready : Bool
  mainWindow : Option Window
  pending : List Call
  log : List Call
deriving DecidableEq, Repr

/-- The state in which the script has been loaded and nothing has happened. -/
def State.start : State :=
  { ready := false, mainWindow := none, pending := [], log := [] }

/-- The window as the host creates it: displayed iff the options say so, not
maximized, nothing loaded, no listener. -/
def Window.create (opts : WindowOptions) : Window :=
  { options := opts, visible := opts.show_, maximized := false, content := none, listeners := [] }

/-- The effect of one host call on the window. -/
def applyCall (h : Host) (c : Call) (w : Option Window) : Option Window :=
  match c with
  | Call.newBrowserWindow opts => some (Window.create opts)
  | Call.loadURL u => w.map fun x => { x with content := some (ContentSource.url u) }
  | Call.loadFile p => w.map fun x => { x with content := some (ContentSource.file p) }
  | Call.on event => w.map fun x => { x with listeners := x.listeners ++ [event] }
  | Call.maximize =>
      w.map fun x => { x with maximized := true, visible := x.visible || h.maximizeShows }
  | Call.showWindow => w.map fun x => { x with visible := true }

/-- The calls run when the window emits `name`: the body of the listener of
lines 29-32, once for each registration under that name. -/
def listenerCalls : List String → String → List Call
  | [], _ => []
  | l :: ls, name => (if l = name then readyToShowHandler else []) ++ listenerCalls ls name

/-- Delivery of a signal.  `runtimeReady` resolves the promise of
`app.whenReady()`, which starts the callback the first time and does nothing
afterwards; a window event starts the listeners registered for it; the
settling of the promise returned by `loadURL` or `loadFile` starts nothing,
since the script attaches no callback to it. -/
def deliver (h : Host) (s : Signal) (st : State) : State :=
  match s with
  | Signal.runtimeReady =>
      if st.ready then st else { st with ready := true, pending := whenReadyCallback h }
  | Signal.windowEvent name =>
      match st.mainWindow with
      | none => st
      | some w => { st with pending := listenerCalls w.listeners name }
  | Signal.loadSettled _ => st

/-- What can happen next: the host delivers a signal, or the running callback
performs its next call. -/
inductive Event where
  | signal (s : Signal)
  | tick
deriving DecidableEq, Repr

/-- One step.  A signal is delivered only when no callback is running
(callbacks run to completion); a tick needs a pending call. -/
def step (h : Host) (st : State) : Event → Option State
  | Event.signal s => if st.pending = [] then some (deliver h s st) else none
  | Event.tick =>
      match st.pending with
      | [] => none
      | c :: rest =>
          some { st with
            mainWindow := applyCall h c st.mainWindow
            pending := rest
            log := st.log ++ [c] }

/-- A run: the events are taken in order; `none` when one is not enabled. -/
def runFrom (h : Host) : State → List Event → Option State
  | st, [] => some st
  | st, e :: es => (step h st e).bind fun st' => runFrom h st' es

/-- A run from the start state. -/
def run (h : Host) (es : List Event) : Option State := runFrom h State.start es

/-- The event name of line 29. -/
def readyToShow : Signal := Signal.windowEvent "ready-to-show"

/-- The events of a complete bootstrap: readiness and the three calls. -/
def bootEvents : List Event :=
  [Event.signal Signal.runtimeReady, Event.tick, Event.tick, Event.tick]

/-! ## Observations on traces -/

/-- Whether a call is a window construction. -/
def Call.isNew : Call → Bool
  | Call.newBrowserWindow _ => true
  | _ => false

/-- Whether a call is `loadURL`. -/
def Call.isLoadURL : Call → Bool
  | Call.loadURL _ => true
  | _ => false

/-- Whether a call is `loadFile`. -/
def Call.isLoadFile : Call → Bool
  | Call.loadFile _ => true
  | _ => false

/-- Whether a call is a content load. -/
def Call.isLoad (c : Call) : Bool := c.isLoadURL || c.isLoadFile

/-- The host's reading of the `resizable` key: a window can be resized unless
its options say otherwise (the default Electron documents). -/
def WindowOptions.isResizable (o : WindowOptions) : Bool := o.resizable.getD true

/-- The number of `ready-to-show` signals of a run that reached the window:
those from the delivery of runtime readiness on.  (A callback runs to
completion, so the first signal after readiness finds the window constructed
and the listener registered.) -/
def deliveries (es : List Event) : Nat :=
  (es.dropWhile fun e => e != Event.signal Signal.runtimeReady).count (Event.signal readyToShow)

/-- A call with the content load hidden: `none` stands for a load, whatever
its kind and argument. -/
def Call.hideLoad (c : Call) : Option Call := if c.isLoad then none else some c

/-- What a state shows apart from the content source: the readiness flag, the
window without its content, and the pending and performed calls with the
loads hidden. -/
def State.hideContent (st : State) :
    Bool × Option Window × List (Option Call) × List (Option Call) :=
  (st.ready, st.mainWindow.map (fun w => { w with content := none }),
    st.pending.map Call.hideLoad, st.log.map Call.hideLoad)

/-- In a list of calls, every `show()` comes directly after a `maximize()`. -/
def ShowAfterMaximize (l : List Call) : Prop :=
  ∀ pre post, l = pre ++ Call.showWindow :: post → ∃ pre', pre = pre' ++ [Call.maximize]

/-! ## Control states

Every state a run reaches is one of the following shapes.  `Phase` names
them, `stateOf` gives the state of each, and `next` is `step` read on the
names; `step_stateOf` below proves that reading exact. -/

/-- Where a run stands: nothing done; inside the readiness callback, with 0,
1 or 2 of its calls performed; idle after `k` complete runs of the listener;
inside the listener's run number `k + 1`, before `maximize()`; or between its
`maximize()` and its `show()`. -/
inductive Phase where
  | start
  | boot0
  | boot1
  | boot2
  | idle (k : Nat)
  | handling (k : Nat)
  | showing (k : Nat)
deriving DecidableEq, Repr

/-- The calls of `k` complete runs of the listener. -/
def handlerRuns : Nat → List Call
  | 0 => []
  | k + 1 => handlerRuns k ++ readyToShowHandler

/-- What the load of lines 23-27 leaves in the window. -/
def contentSource (h : Host) : ContentSource :=
  if isDev h then ContentSource.url "http://localhost:5173"
  else ContentSource.file (h.join [h.dirname, "..", "dist", "index.html"])

/-- The window once the readiness callback has finished. -/
def bootedWindow (h : Host) (vis max : Bool) : Window :=
  { options := browserWindowOptions, visible := vis, maximized := max,
    content := some (contentSource h), listeners := ["ready-to-show"] }

/-- The state of each phase. -/
def stateOf (h : Host) : Phase → State
  | Phase.start => State.start
  | Phase.boot0 =>
      { ready := true, mainWindow := none, pending := whenReadyCallback h, log := [] }
  | Phase.boot1 =>
      { ready := true, mainWindow := some (Window.create browserWindowOptions),
        pending := [loadCall h, Call.on "ready-to-show"],
        log := [Call.newBrowserWindow browserWindowOptions] }
  | Phase.boot2 =>
      { ready := true,
        mainWindow := some { Window.create browserWindowOptions with
          content := some (contentSource h) },
        pending := [Call.on "ready-to-show"],
        log := [Call.newBrowserWindow browserWindowOptions, loadCall h] }
  | Phase.idle k =>
      { ready := true, mainWindow := some (bootedWindow h (decide (0 < k)) (decide (0 < k))),
        pending := [], log := whenReadyCallback h ++ handlerRuns k }
  | Phase.handling k =>
      { ready := true, mainWindow := some (bootedWindow h (decide (0 < k)) (decide (0 < k))),
        pending := readyToShowHandler, log := whenReadyCallback h ++ handlerRuns k }
  | Phase.showing k =>
      { ready := true,
        mainWindow := some (bootedWindow h (decide (0 < k) || h.maximizeShows) true),
        pending := [Call.showWindow],
        log := whenReadyCallback h ++ handlerRuns k ++ [Call.maximize] }

/-- The move of `step` between phases. -/
def next : Phase → Event → Option Phase
  | Phase.start, Event.signal Signal.runtimeReady => some Phase.boot0
  | Phase.start, Event.signal _ => some Phase.start
  | Phase.boot0, Event.tick => some Phase.boot1
  | Phase.boot1, Event.tick => some Phase.boot2
  | Phase.boot2, Event.tick => some (Phase.idle 0)
  | Phase.idle k, Event.signal (Signal.windowEvent name) =>
      if name = "ready-to-show" then some (Phase.handling k) else some (Phase.idle k)
  | Phase.idle k, Event.signal _ => some (Phase.idle k)
  | Phase.handling k, Event.tick => some (Phase.showing k)
  | Phase.showing k, Event.tick => some (Phase.idle (k + 1))
  | _, _ => none

/-- The phase a run of events ends in. -/
def nextRun : Phase → List Event → Option Phase
  | p, [] => some p
  | p, e :: es => (next p e).bind fun q => nextRun q es

/-- The number of `ready-to-show` deliveries a phase has seen. -/
def Phase.seen : Phase → Nat
  | Phase.idle k => k
  | Phase.handling k => k + 1
  | Phase.showing k => k + 1
  | _ => 0

/-! ## A POSIX `path.join`

`path.join` belongs to the host.  The development takes it as the field
`Host.join`; the function below follows the POSIX behaviour Node documents
(join the non-empty arguments with `/`, then normalise: drop empty and `.`
segments, let `..` remove the segment before it) and serves as the instance
on which the statements are evaluated. -/

/-- The segments of a path: the pieces between the `/` characters. -/
def splitSlash : List Char → List (List Char)
  | [] => [[]]
  | c :: cs =>
      if c = '/' then [] :: splitSlash cs
      else
        match splitSlash cs with
        | [] => [[c]]
        | seg :: segs => (c :: seg) :: segs

/-- Normalisation of a list of segments; `acc` holds the segments kept so far,
last first.  Above the root of an absolute path `..` is dropped, above the
start of a relative path it is kept. -/
def normalizeSegments (allowAboveRoot : Bool) :
    List (List Char) → List (List Char) → List (List Char)
  | acc, [] => acc.reverse
  | acc, seg :: segs =>
      if seg = [] ∨ seg = ['.'] then normalizeSegments allowAboveRoot acc segs
      else if seg = ['.', '.'] then
        match acc with
        | [] =>
            if allowAboveRoot then normalizeSegments allowAboveRoot [seg] segs
            else normalizeSegments allowAboveRoot [] segs
        | top :: below =>
            if top = ['.', '.'] then
              if allowAboveRoot then normalizeSegments allowAboveRoot (seg :: acc) segs
              else normalizeSegments allowAboveRoot acc segs
            else normalizeSegments allowAboveRoot below segs
      else normalizeSegments allowAboveRoot (seg :: acc) segs

/-- The pieces put together with `/` between them. -/
def joinSlash : List (List Char) → List Char
  | [] => []
  | [seg] => seg
  | seg :: segs => seg ++ '/' :: joinSlash segs

/-- POSIX `path.normalize` on characters. -/
def posixNormalize (path : List Char) : List Char :=
  if path = [] then ['.']
  else
    let isAbsolute := path.head? = some '/'
    let trailing := path.getLast? = some '/'
    let body := joinSlash (normalizeSegments (!isAbsolute) [] (splitSlash path))
    if body = [] then
      if isAbsolute then ['/'] else if trailing then ['.', '/'] else ['.']
    else
      (if isAbsolute then ['/'] else []) ++ body ++ (if trailing then ['/'] else [])

/-- POSIX `path.join`. -/
def posixJoin (args : List String) : String :=
  let parts := (args.map String.data).filter fun a => a ≠ []
  if parts = [] then "." else String.mk (posixNormalize (joinSlash parts))

/-- A segment of a normalised path: not empty, without `/`, and neither `.`
nor `..`. -/
def PlainSegment (seg : List Char) : Prop :=
  seg ≠ [] ∧ '/' ∉ seg ∧ seg ≠ ['.'] ∧ seg ≠ ['.', '.']

instance (seg : List Char) : Decidable (PlainSegment seg) := by
  unfold PlainSegment
  infer_instance

/-- The absolute path with the given segments; the root for none. -/
def absolutePath (segs : List (List Char)) : String := String.mk ('/' :: joinSlash segs)

/-- A host for examples: script directory `/opt/app/main`, POSIX paths. -/
def exampleHost (packaged : Bool) : Host :=
  { isPackaged := packaged, dirname := "/opt/app/main", join := posixJoin, maximizeShows := true }

/-! ## The phases are exact -/

theorem applyCall_loadCall (h : Host) (w : Window) :
    applyCall h (loadCall h) (some w) = some { w with content := some (contentSource h) } := by
  unfold loadCall contentSource
  split <;> rfl

theorem step_tick_cons (h : Host) (st : State) (c : Call) (rest : List Call)
    (hp : st.pending = c :: rest) :
    step h st Event.tick =
      some { st with mainWindow := applyCall h c st.mainWindow, pending := rest,
                     log := st.log ++ [c] } := by
  simp [step, hp]

theorem listenerCalls_single (name : String) :
    listenerCalls ["ready-to-show"] name
      = if name = "ready-to-show" then readyToShowHandler else [] := by
  by_cases hn : name = "ready-to-show"
  · subst hn
    simp [listenerCalls]
  · have hn' : ¬ "ready-to-show" = name := fun e => hn e.symm
    simp [listenerCalls, hn, hn']

theorem step_stateOf (h : Host) (p : Phase) (e : Event) :
    step h (stateOf h p) e = (next p e).map (stateOf h) := by
  cases p <;> cases e with
  | tick =>
    first
      | rfl
      | (rw [step_tick_cons h _ (loadCall h) [Call.on "ready-to-show"] rfl]
         simp [stateOf, next, applyCall_loadCall])
      | simp [step, stateOf, next, whenReadyCallback, readyToShowHandler, applyCall,
          bootedWindow, Window.create, handlerRuns]
  | signal s =>
    cases s with
    | windowEvent name =>
      first
        | (simp [step, stateOf, next, deliver, State.start, whenReadyCallback,
            readyToShowHandler]; done)
        | (simp only [step, stateOf, next, deliver, bootedWindow, listenerCalls_single,
            if_true]
           split <;> rfl)
    | _ =>
      simp [step, stateOf, next, deliver, State.start, whenReadyCallback, readyToShowHandler]

theorem runFrom_stateOf (h : Host) (es : List Event) :
    ∀ p : Phase, runFrom h (stateOf h p) es = (nextRun p es).map (stateOf h) := by
  induction es with
  | nil => intro p; rfl
  | cons e es ih =>
    intro p
    simp only [runFrom, nextRun, step_stateOf]
    cases next p e with
    | none => rfl
    | some q => simpa using ih q

/-- Every state a run reaches is the state of the phase the run ends in. -/
theorem run_phase (h : Host) (es : List Event) (st : State) (hrun : run h es = some st) :
    ∃ p, nextRun Phase.start es = some p ∧ st = stateOf h p := by
  have key := runFrom_stateOf h es Phase.start
  change run h es = _ at key
  rw [hrun] at key
  cases hp : nextRun Phase.start es with
  | none => rw [hp] at key; cases key
  | some p =>
    rw [hp] at key
    exact ⟨p, rfl, by simpa using key⟩

theorem runFrom_append (h : Host) (es fs : List Event) :
    ∀ st : State, runFrom h st (es ++ fs) = (runFrom h st es).bind fun st' => runFrom h st' fs := by
  induction es with
  | nil => intro st; rfl
  | cons e es ih =>
    intro st
    simp only [List.cons_append, runFrom]
    cases step h st e with
    | none => rfl
    | some st' => simpa using ih st'

theorem nextRun_append (es fs : List Event) :
    ∀ p : Phase, nextRun p (es ++ fs) = (nextRun p es).bind fun q => nextRun q fs := by
  induction es with
  | nil => intro p; rfl
  | cons e es ih =>
    intro p
    simp only [List.cons_append, nextRun]
    cases next p e with
    | none => rfl
    | some q => simpa using ih q

theorem nextRun_bootEvents : nextRun Phase.start bootEvents = some (Phase.idle 0) := rfl

/-- One move away from a phase other than `start` stays away from it and
counts the `ready-to-show` signal it delivers. -/
theorem next_seen (p q : Phase) (e : Event) (hp : p ≠ Phase.start) (hq : next p e = some q) :
    q ≠ Phase.start ∧ q.seen = p.seen + [e].count (Event.signal readyToShow) := by
  cases p <;> cases e with
  | tick => first | exact absurd rfl hp | (cases hq; exact ⟨by simp, by simp [Phase.seen]⟩) | cases hq
  | signal s =>
    cases s with
    | windowEvent name =>
      first
        | exact absurd rfl hp
        | (simp only [next] at hq
           split at hq
           · rename_i hn
             subst hn
             cases hq
             exact ⟨by simp, by simp [Phase.seen, readyToShow]⟩
           · rename_i hn
             cases hq
             have hne : ¬ Event.signal (Signal.windowEvent name) = Event.signal readyToShow := by
               simp [readyToShow, hn]
             exact ⟨by simp, by simp [Phase.seen, List.count_cons, hne]⟩)
        | cases hq
    | _ =>
      first
        | exact absurd rfl hp
        | (cases hq; exact ⟨by simp, by simp [Phase.seen, readyToShow]⟩)
        | cases hq

theorem nextRun_seen (es : List Event) :
    ∀ p q : Phase, p ≠ Phase.start → nextRun p es = some q →
      q ≠ Phase.start ∧ q.seen = p.seen + es.count (Event.signal readyToShow) := by
  induction es with
  | nil =>
    intro p q hp hq
    cases hq
    exact ⟨hp, by simp⟩
  | cons e es ih =>
    intro p q hp hq
    simp only [nextRun] at hq
    cases hn : next p e with
    | none => rw [hn] at hq; cases hq
    | some r =>
      rw [hn] at hq
      obtain ⟨hr, hs⟩ := next_seen p r e hp hn
      obtain ⟨hq1, hq2⟩ := ih r q hr (by simpa using hq)
      refine ⟨hq1, ?_⟩
      rw [hq2, hs]
      simp only [List.count_cons, List.count_nil]
      omega

theorem deliveries_cons_ready (es : List Event) :
    deliveries (Event.signal Signal.runtimeReady :: es) = es.count (Event.signal readyToShow) := by
  simp [deliveries, List.dropWhile, List.count_cons, readyToShow]

theorem deliveries_cons_other (e : Event) (es : List Event)
    (he : e ≠ Event.signal Signal.runtimeReady) : deliveries (e :: es) = deliveries es := by
  have hb : (e != Event.signal Signal.runtimeReady) = true := by simpa using he
  simp [deliveries, List.dropWhile, hb]

/-- From `start` a run stays there until runtime readiness is delivered, and
from then on the phase counts the `ready-to-show` signals. -/
theorem nextRun_start (es : List Event) (q : Phase) (hq : nextRun Phase.start es = some q) :
    (q = Phase.start ↔ Event.signal Signal.runtimeReady ∉ es) ∧ q.seen = deliveries es := by
  induction es with
  | nil =>
    cases hq
    exact ⟨by simp, rfl⟩
  | cons e es ih =>
    cases e with
    | tick => cases hq
    | signal s =>
      cases s with
      | runtimeReady =>
        have hq' : nextRun Phase.boot0 es = some q := hq
        obtain ⟨h1, h2⟩ := nextRun_seen es Phase.boot0 q (by simp) hq'
        refine ⟨by simp [h1], ?_⟩
        rw [h2, deliveries_cons_ready]
        simp [Phase.seen]
      | windowEvent name =>
        have hq' : nextRun Phase.start es = some q := hq
        obtain ⟨h1, h2⟩ := ih hq'
        refine ⟨by simp [h1], ?_⟩
        rw [h2, deliveries_cons_other _ _ (by simp)]
      | loadSettled ok =>
        have hq' : nextRun Phase.start es = some q := hq
        obtain ⟨h1, h2⟩ := ih hq'
        refine ⟨by simp [h1], ?_⟩
        rw [h2, deliveries_cons_other _ _ (by simp)]

/-- The calls performed and pending in a phase: the readiness callback
followed by one run of the listener for each delivery seen. -/
theorem trace_stateOf (h : Host) (p : Phase) (hp : p ≠ Phase.start) :
    (stateOf h p).log ++ (stateOf h p).pending = whenReadyCallback h ++ handlerRuns p.seen := by
  cases p <;>
    first
      | exact absurd rfl hp
      | simp [stateOf, whenReadyCallback, handlerRuns, readyToShowHandler, Phase.seen]

/-- A phase with nothing pending is `start` or idle. -/
theorem pending_stateOf (h : Host) (p : Phase) (hp : (stateOf h p).pending = []) :
    p = Phase.start ∨ p = Phase.idle p.seen := by
  cases p <;> simp [stateOf, whenReadyCallback, readyToShowHandler, Phase.seen] at hp ⊢

/-- Before runtime readiness a run is in the start state. -/
theorem run_before_ready (h : Host) (es : List Event) (st : State) (hrun : run h es = some st)
    (hes : Event.signal Signal.runtimeReady ∉ es) : st = State.start := by
  obtain ⟨p, hp, rfl⟩ := run_phase h es st hrun
  have hs := (nextRun_start es p hp).1.2 hes
  subst hs
  rfl

/-- After runtime readiness the trace of a run is the readiness callback
followed by one run of the listener for each delivery. -/
theorem run_trace (h : Host) (es : List Event) (st : State) (hrun : run h es = some st)
    (hes : Event.signal Signal.runtimeReady ∈ es) :
    st.log ++ st.pending = whenReadyCallback h ++ handlerRuns (deliveries es) := by
  obtain ⟨p, hp, rfl⟩ := run_phase h es st hrun
  obtain ⟨h1, h2⟩ := nextRun_start es p hp
  have hne : p ≠ Phase.start := fun e => (h1.1 e) hes
  rw [trace_stateOf h p hne, h2]

/-- After runtime readiness a run with nothing pending is idle. -/
theorem run_idle (h : Host) (es : List Event) (st : State) (hrun : run h es = some st)
    (hes : Event.signal Signal.runtimeReady ∈ es) (hpend : st.pending = []) :
    st = stateOf h (Phase.idle (deliveries es)) := by
  obtain ⟨p, hp, rfl⟩ := run_phase h es st hrun
  obtain ⟨h1, h2⟩ := nextRun_start es p hp
  have hne : p ≠ Phase.start := fun e => (h1.1 e) hes
  rcases pending_stateOf h p hpend with h3 | h3
  · exact absurd h3 hne
  · rw [h3, h2]

theorem mem_handlerRuns (k : Nat) (c : Call) (hc : c ∈ handlerRuns k) :
    c = Call.maximize ∨ c = Call.showWindow := by
  induction k with
  | zero => simp [handlerRuns] at hc
  | succ k ih =>
    simp only [handlerRuns, readyToShowHandler, List.mem_append, List.mem_cons,
      List.mem_singleton, List.not_mem_nil, or_false] at hc
    rcases hc with hc | hc | hc
    · exact ih hc
    · exact Or.inl hc
    · exact Or.inr hc

theorem count_maximize_handlerRuns (k : Nat) : (handlerRuns k).count Call.maximize = k := by
  induction k with
  | zero => rfl
  | succ k ih => simp [handlerRuns, readyToShowHandler, List.count_cons, ih]

theorem count_showWindow_handlerRuns (k : Nat) : (handlerRuns k).count Call.showWindow = k := by
  induction k with
  | zero => rfl
  | succ k ih => simp [handlerRuns, readyToShowHandler, List.count_cons, ih]

theorem filter_handlerRuns (f : Call → Bool) (hm : f Call.maximize = false)
    (hs : f Call.showWindow = false) (k : Nat) : (handlerRuns k).filter f = [] := by
  rw [List.filter_eq_nil_iff]
  intro c hc
  rcases mem_handlerRuns k c hc with rfl | rfl <;> simp [hm, hs]

theorem loadCall_dev (h : Host) (hdev : h.isPackaged = false) :
    loadCall h = Call.loadURL "http://localhost:5173" := by
  simp [loadCall, isDev, hdev]

theorem loadCall_packaged (h : Host) (hpk : h.isPackaged = true) :
    loadCall h = Call.loadFile (h.join [h.dirname, "..", "dist", "index.html"]) := by
  simp [loadCall, isDev, hpk]

theorem contentSource_dev (h : Host) (hdev : h.isPackaged = false) :
    contentSource h = ContentSource.url "http://localhost:5173" := by
  simp [contentSource, isDev, hdev]

theorem contentSource_packaged (h : Host) (hpk : h.isPackaged = true) :
    contentSource h = ContentSource.file (h.join [h.dirname, "..", "dist", "index.html"]) := by
  simp [contentSource, isDev, hpk]

/-- The loads among the calls of a finished bootstrap: the one of lines 23-27. -/
theorem filter_isLoad_idle (h : Host) (k : Nat) :
    (stateOf h (Phase.idle k)).log.filter Call.isLoad = [loadCall h] := by
  rw [show (stateOf h (Phase.idle k)).log = whenReadyCallback h ++ handlerRuns k from rfl,
    List.filter_append, filter_handlerRuns _ rfl rfl, List.append_nil]
  unfold whenReadyCallback loadCall
  split <;> rfl

/-- Every call of a run is one of the three of the readiness callback or one
of the two of the listener. -/
theorem mem_trace (h : Host) (es : List Event) (st : State) (hrun : run h es = some st)
    (c : Call) (hc : c ∈ st.log ++ st.pending) :
    c = Call.newBrowserWindow browserWindowOptions ∨ c = loadCall h
      ∨ c = Call.on "ready-to-show" ∨ c = Call.maximize ∨ c = Call.showWindow := by
  by_cases hes : Event.signal Signal.runtimeReady ∈ es
  · rw [run_trace h es st hrun hes] at hc
    rcases List.mem_append.1 hc with hc | hc
    · simp only [whenReadyCallback, List.mem_cons, List.mem_singleton, List.not_mem_nil,
        or_false] at hc
      rcases hc with hc | hc | hc
      · exact Or.inl hc
      · exact Or.inr (Or.inl hc)
      · exact Or.inr (Or.inr (Or.inl hc))
    · rcases mem_handlerRuns _ c hc with hc | hc
      · exact Or.inr (Or.inr (Or.inr (Or.inl hc)))
      · exact Or.inr (Or.inr (Or.inr (Or.inr hc)))
  · rw [run_before_ready h es st hrun hes] at hc
    simp [State.start] at hc

/-- A window that is displayed has seen a delivery and is maximized. -/
theorem visible_stateOf (h : Host) (p : Phase) (w : Window)
    (hw : (stateOf h p).mainWindow = some w) (hv : w.visible = true) :
    0 < p.seen ∧ w.maximized = true := by
  cases p with
  | start => cases hw
  | boot0 => cases hw
  | boot1 => cases hw; cases hv
  | boot2 => cases hw; cases hv
  | idle k =>
    cases hw
    have hk : 0 < k := by simpa [bootedWindow] using hv
    simp [bootedWindow, Phase.seen, hk]
  | handling k =>
    cases hw
    have hk : 0 < k := by simpa [bootedWindow] using hv
    simp [bootedWindow, Phase.seen, hk]
  | showing k =>
    cases hw
    simp [bootedWindow, Phase.seen]

/-- The calls `maximize()` and `show()` of a run, performed or pending, are as
many as the `ready-to-show` signals delivered to the window. -/
theorem count_trace (h : Host) (es : List Event) (st : State) (hrun : run h es = some st) :
    (st.log ++ st.pending).count Call.maximize = deliveries es ∧
    (st.log ++ st.pending).count Call.showWindow = deliveries es := by
  obtain ⟨p, hp, rfl⟩ := run_phase h es st hrun
  obtain ⟨-, h2⟩ := nextRun_start es p hp
  by_cases hs : p = Phase.start
  · subst hs
    rw [← h2]
    exact ⟨rfl, rfl⟩
  · have hm : (whenReadyCallback h).count Call.maximize = 0 := by
      unfold whenReadyCallback loadCall
      split <;> rfl
    have hw : (whenReadyCallback h).count Call.showWindow = 0 := by
      unfold whenReadyCallback loadCall
      split <;> rfl
    rw [trace_stateOf h p hs, List.count_append, List.count_append, hm, hw,
      count_maximize_handlerRuns, count_showWindow_handlerRuns, h2]
    simp

theorem deliveries_bootEvents_append (es : List Event) :
    deliveries (bootEvents ++ es) = es.count (Event.signal readyToShow) := by
  simp [bootEvents, deliveries_cons_ready, List.count_cons, readyToShow]

theorem ready_mem_bootEvents_append (es : List Event) :
    Event.signal Signal.runtimeReady ∈ bootEvents ++ es := by
  simp [bootEvents]

theorem snoc_eq_append_cons (l pre post : List Call) (c d : Call)
    (hl : l ++ [c] = pre ++ d :: post) :
    (post = [] ∧ l = pre ∧ c = d) ∨ ∃ post', post = post' ++ [c] ∧ l = pre ++ d :: post' := by
  rcases List.eq_nil_or_concat post with rfl | ⟨post', b, rfl⟩
  · obtain ⟨h1, h2⟩ := List.append_inj' hl rfl
    exact Or.inl ⟨rfl, h1, by simpa using h2⟩
  · rw [List.concat_eq_append] at hl ⊢
    have hl' : l ++ [c] = (pre ++ d :: post') ++ [b] := by simpa using hl
    obtain ⟨h1, h2⟩ := List.append_inj' hl' rfl
    have hcb : c = b := by simpa using h2
    exact Or.inr ⟨post', by rw [hcb], h1⟩

theorem ShowAfterMaximize.nil : ShowAfterMaximize [] := by
  intro pre post hl
  simp at hl

theorem ShowAfterMaximize.snoc (l : List Call) (c : Call) (hl : ShowAfterMaximize l)
    (hc : c ≠ Call.showWindow) : ShowAfterMaximize (l ++ [c]) := by
  intro pre post he
  rcases snoc_eq_append_cons l pre post c Call.showWindow he with ⟨-, -, h3⟩ | ⟨post', -, h2⟩
  · exact absurd h3 hc
  · exact hl pre post' h2

theorem ShowAfterMaximize.snoc_show (l : List Call) (hl : ShowAfterMaximize (l ++ [Call.maximize])) :
    ShowAfterMaximize (l ++ [Call.maximize] ++ [Call.showWindow]) := by
  intro pre post he
  rcases snoc_eq_append_cons _ pre post _ Call.showWindow he with ⟨-, h2, -⟩ | ⟨post', -, h2⟩
  · exact ⟨l, h2.symm⟩
  · exact hl pre post' h2

theorem loadCall_ne_showWindow (h : Host) : loadCall h ≠ Call.showWindow := by
  unfold loadCall
  split <;> simp

theorem showAfterMaximize_boot (h : Host) :
    ShowAfterMaximize [Call.newBrowserWindow browserWindowOptions] ∧
    ShowAfterMaximize [Call.newBrowserWindow browserWindowOptions, loadCall h] ∧
    ShowAfterMaximize (whenReadyCallback h) := by
  have h1 := ShowAfterMaximize.snoc [] (Call.newBrowserWindow browserWindowOptions)
    ShowAfterMaximize.nil (by simp)
  have h2 := ShowAfterMaximize.snoc _ (loadCall h) h1 (loadCall_ne_showWindow h)
  have h3 := ShowAfterMaximize.snoc _ (Call.on "ready-to-show") h2 (by simp)
  exact ⟨h1, h2, h3⟩

theorem showAfterMaximize_runs (h : Host) (k : Nat) :
    ShowAfterMaximize (whenReadyCallback h ++ handlerRuns k) := by
  induction k with
  | zero => simpa [handlerRuns] using (showAfterMaximize_boot h).2.2
  | succ k ih =>
    have h1 := ShowAfterMaximize.snoc _ Call.maximize ih (by simp)
    have h2 := ShowAfterMaximize.snoc_show _ h1
    simpa [handlerRuns, readyToShowHandler] using h2

theorem showAfterMaximize_stateOf (h : Host) (p : Phase) :
    ShowAfterMaximize (stateOf h p).log := by
  cases p with
  | start => exact ShowAfterMaximize.nil
  | boot0 => exact ShowAfterMaximize.nil
  | boot1 => exact (showAfterMaximize_boot h).1
  | boot2 => exact (showAfterMaximize_boot h).2.1
  | idle k => exact showAfterMaximize_runs h k
  | handling k => exact showAfterMaximize_runs h k
  | showing k => exact ShowAfterMaximize.snoc _ Call.maximize (showAfterMaximize_runs h k) (by simp)

/-- Counting calls of a kind the listener does not perform: after runtime
readiness the count over a run is the count over the readiness callback. -/
theorem countP_trace (h : Host) (es : List Event) (st : State) (hrun : run h es = some st)
    (hes : Event.signal Signal.runtimeReady ∈ es) (f : Call → Bool)
    (hm : f Call.maximize = false) (hs : f Call.showWindow = false) :
    (st.log ++ st.pending).countP f = (whenReadyCallback h).countP f := by
  have hz : (handlerRuns (deliveries es)).countP f = 0 := by
    rw [List.countP_eq_length_filter, filter_handlerRuns f hm hs]
    rfl
  rw [run_trace h es st hrun hes, List.countP_append, hz]
  rfl

theorem countP_whenReadyCallback (h : Host) :
    (whenReadyCallback h).countP Call.isNew = 1 ∧
    (whenReadyCallback h).countP Call.isLoad = 1 ∧
    (whenReadyCallback h).countP Call.isLoadURL + (whenReadyCallback h).countP Call.isLoadFile
      = 1 := by
  unfold whenReadyCallback loadCall
  split <;> exact ⟨rfl, rfl, rfl⟩

/-- Every construction of a run passes the literal of lines 6-20. -/
theorem new_mem_trace (h : Host) (es : List Event) (st : State) (hrun : run h es = some st)
    (opts : WindowOptions) (hopts : Call.newBrowserWindow opts ∈ st.log ++ st.pending) :
    opts = browserWindowOptions := by
  rcases mem_trace h es st hrun _ hopts with hc | hc | hc | hc | hc
  · cases hc
    rfl
  · exfalso
    unfold loadCall at hc
    split at hc <;> cases hc
  all_goals cases hc

/-- The window of every phase was made from the literal of lines 6-20. -/
theorem options_stateOf (h : Host) (p : Phase) (w : Window)
    (hw : (stateOf h p).mainWindow = some w) : w.options = browserWindowOptions := by
  cases p <;> cases hw <;> rfl

/-- A phase whose log is not empty has performed the construction, once. -/
theorem countP_isNew_log (h : Host) (p : Phase) (hl : (stateOf h p).log ≠ []) :
    (stateOf h p).log.countP Call.isNew = 1 ∧ ∃ w, (stateOf h p).mainWindow = some w := by
  have hl1 : (loadCall h).isNew = false := by
    unfold loadCall
    split <;> rfl
  have hcb : (whenReadyCallback h).countP Call.isNew = 1 := (countP_whenReadyCallback h).1
  have hruns : ∀ k, (whenReadyCallback h ++ handlerRuns k).countP Call.isNew = 1 := by
    intro k
    have hz : (handlerRuns k).countP Call.isNew = 0 := by
      rw [List.countP_eq_length_filter, filter_handlerRuns _ rfl rfl]
      rfl
    rw [List.countP_append, hz, hcb]
  cases p with
  | start => exact absurd rfl hl
  | boot0 => exact absurd rfl hl
  | boot1 => exact ⟨rfl, _, rfl⟩
  | boot2 =>
    refine ⟨?_, _, rfl⟩
    change [Call.newBrowserWindow browserWindowOptions, loadCall h].countP Call.isNew = 1
    rw [List.countP_cons, List.countP_cons, hl1]
    rfl
  | idle k => exact ⟨hruns k, _, rfl⟩
  | handling k => exact ⟨hruns k, _, rfl⟩
  | showing k =>
    refine ⟨?_, _, rfl⟩
    change (whenReadyCallback h ++ handlerRuns k ++ [Call.maximize]).countP Call.isNew = 1
    rw [List.countP_append, hruns k]
    rfl

theorem hideLoad_loadCall (h : Host) : (loadCall h).hideLoad = none := by
  unfold loadCall
  split <;> rfl

/-- Apart from the content source, the state of a phase depends on the host
only through `maximizeShows`. -/
theorem hideContent_stateOf (h1 h2 : Host) (hm : h1.maximizeShows = h2.maximizeShows)
    (p : Phase) : (stateOf h1 p).hideContent = (stateOf h2 p).hideContent := by
  cases p <;>
    simp [stateOf, State.hideContent, whenReadyCallback, hideLoad_loadCall, bootedWindow, hm]

/-! ## The POSIX join of the script directory -/

theorem splitSlash_plain (seg : List Char) (hs : '/' ∉ seg) : splitSlash seg = [seg] := by
  induction seg with
  | nil => rfl
  | cons c cs ih =>
    have hc : c ≠ '/' := fun e => hs (by simp [e])
    have hcs : '/' ∉ cs := fun e => hs (List.mem_cons_of_mem _ e)
    simp [splitSlash, hc, ih hcs]

theorem splitSlash_append (seg rest : List Char) (hs : '/' ∉ seg) :
    splitSlash (seg ++ '/' :: rest) = seg :: splitSlash rest := by
  induction seg with
  | nil => simp [splitSlash]
  | cons c cs ih =>
    have hc : c ≠ '/' := fun e => hs (by simp [e])
    have hcs : '/' ∉ cs := fun e => hs (List.mem_cons_of_mem _ e)
    simp [splitSlash, hc, ih hcs]

theorem joinSlash_cons (seg : List Char) (segs : List (List Char)) (hne : segs ≠ []) :
    joinSlash (seg :: segs) = seg ++ '/' :: joinSlash segs := by
  cases segs with
  | nil => exact absurd rfl hne
  | cons a t => rfl

theorem joinSlash_append (l₁ l₂ : List (List Char)) (h1 : l₁ ≠ []) (h2 : l₂ ≠ []) :
    joinSlash (l₁ ++ l₂) = joinSlash l₁ ++ '/' :: joinSlash l₂ := by
  induction l₁ with
  | nil => exact absurd rfl h1
  | cons a t ih =>
    cases t with
    | nil => exact joinSlash_cons a l₂ h2
    | cons b u =>
      have hne : (b :: u) ++ l₂ ≠ [] := by simp
      rw [List.cons_append, joinSlash_cons a _ hne, ih (by simp),
        joinSlash_cons a (b :: u) (by simp)]
      simp

theorem splitSlash_joinSlash (l : List (List Char)) (hl : ∀ seg ∈ l, '/' ∉ seg) (hne : l ≠ []) :
    splitSlash (joinSlash l) = l := by
  induction l with
  | nil => exact absurd rfl hne
  | cons a t ih =>
    have ha : '/' ∉ a := hl a (by simp)
    cases t with
    | nil => simpa [joinSlash] using splitSlash_plain a ha
    | cons b u =>
      rw [joinSlash_cons a (b :: u) (by simp), splitSlash_append a _ ha,
        ih (fun seg hseg => hl seg (List.mem_cons_of_mem _ hseg)) (by simp)]

theorem normalizeSegments_plain (b : Bool) (l : List (List Char))
    (hl : ∀ seg ∈ l, PlainSegment seg) :
    ∀ acc rest, normalizeSegments b acc (l ++ rest) = normalizeSegments b (l.reverse ++ acc) rest := by
  induction l with
  | nil => intro acc rest; rfl
  | cons a t ih =>
    intro acc rest
    obtain ⟨h1, -, h3, h4⟩ := hl a (by simp)
    have hstep : normalizeSegments b acc (a :: (t ++ rest))
        = normalizeSegments b (a :: acc) (t ++ rest) := by
      rw [normalizeSegments.eq_def]
      simp [h1, h3, h4]
    rw [List.cons_append, hstep, ih (fun seg hseg => hl seg (List.mem_cons_of_mem _ hseg))]
    simp

theorem posixNormalize_absolute (rest : List Char)
    (hlast : ('/' :: rest).getLast? ≠ some '/')
    (hbody : joinSlash (normalizeSegments false [] (splitSlash ('/' :: rest))) ≠ []) :
    posixNormalize ('/' :: rest)
      = '/' :: joinSlash (normalizeSegments false [] (splitSlash ('/' :: rest))) := by
  unfold posixNormalize
  simp [hlast, hbody]

theorem joinSlash_snoc_ne_nil (l : List (List Char)) (a b : List Char) :
    joinSlash (l ++ [a, b]) ≠ [] := by
  have e : l ++ [a, b] = (l ++ [a]) ++ [b] := by simp
  rw [e, joinSlash_append _ _ (by simp) (by simp)]
  simp

theorem getLast_joinSlash_snoc (l : List (List Char)) (a b : List Char) (c : Char)
    (hb : b.getLast? = some c) : (joinSlash (l ++ [a, b])).getLast? = some c := by
  have e : l ++ [a, b] = (l ++ [a]) ++ [b] := by simp
  rw [e, joinSlash_append _ _ (by simp) (by simp)]
  cases b with
  | nil => cases hb
  | cons x t => simp [joinSlash, List.getLast?_append, List.getLast?_cons_cons, hb]

/-- POSIX `path.join` of an absolute normalised script directory with `..`,
`dist` and `index.html`: the parent directory followed by `dist/index.html`
(the parent of the root being the root). -/
theorem posixJoin_parent (segs : List (List Char)) (hsegs : ∀ seg ∈ segs, PlainSegment seg) :
    posixJoin [absolutePath segs, "..", "dist", "index.html"]
      = absolutePath (segs.dropLast ++ ["dist".data, "index.html".data]) := by
  rcases List.eq_nil_or_concat segs with rfl | ⟨init, last, rfl⟩
  · rfl
  · rw [List.concat_eq_append] at hsegs ⊢
    have hne : init ++ [last] ≠ [] := by simp
    have htail : ∀ seg ∈ [['.', '.'], "dist".data, "index.html".data], '/' ∉ seg := by
      decide
    have hpath : joinSlash [('/' :: joinSlash (init ++ [last])), ['.', '.'], "dist".data,
          "index.html".data]
        = '/' :: joinSlash ((init ++ [last]) ++ [['.', '.'], "dist".data, "index.html".data]) := by
      rw [joinSlash_cons _ _ (by simp), joinSlash_append _ _ hne (by simp)]
      simp
    have hsplit : splitSlash ('/' :: joinSlash ((init ++ [last])
          ++ [['.', '.'], "dist".data, "index.html".data]))
        = [] :: ((init ++ [last]) ++ [['.', '.'], "dist".data, "index.html".data]) := by
      have h1 : ∀ cs, splitSlash ('/' :: cs) = [] :: splitSlash cs := by
        intro cs
        simp [splitSlash]
      rw [h1, splitSlash_joinSlash _ _ (by simp)]
      intro seg hseg
      rcases List.mem_append.1 hseg with h2 | h2
      · exact (hsegs seg h2).2.1
      · exact htail seg h2
    have hlast : last ≠ ['.', '.'] := (hsegs last (by simp)).2.2.2
    have hnorm : normalizeSegments false []
          ([] :: ((init ++ [last]) ++ [['.', '.'], "dist".data, "index.html".data]))
        = init ++ ["dist".data, "index.html".data] := by
      have h1 : ∀ l, normalizeSegments false [] ([] :: l) = normalizeSegments false [] l := by
        intro l
        rw [normalizeSegments.eq_def]
        simp
      have h2 : normalizeSegments false (last :: init.reverse)
            ([['.', '.'], "dist".data, "index.html".data])
          = normalizeSegments false init.reverse (["dist".data, "index.html".data] ++ []) := by
        rw [normalizeSegments.eq_def]
        simp [hlast]
      have h3 : ∀ seg ∈ ["dist".data, "index.html".data], PlainSegment seg := by
        intro seg hseg
        simp only [List.mem_cons, List.mem_singleton, List.not_mem_nil, or_false] at hseg
        rcases hseg with rfl | rfl <;> exact ⟨by decide, by decide, by decide, by decide⟩
      rw [h1, normalizeSegments_plain false _ hsegs, List.append_nil, List.reverse_append,
        List.reverse_singleton, List.singleton_append, h2,
        normalizeSegments_plain false _ h3]
      simp [normalizeSegments]
    have hjoin : posixJoin [absolutePath (init ++ [last]), "..", "dist", "index.html"]
        = String.mk (posixNormalize (joinSlash [('/' :: joinSlash (init ++ [last])),
            ['.', '.'], "dist".data, "index.html".data])) := rfl
    rw [hjoin, hpath, posixNormalize_absolute, hsplit, hnorm, List.dropLast_concat]
    · rfl
    · have hl := getLast_joinSlash_snoc (init ++ [last] ++ [['.', '.']]) "dist".data
        "index.html".data 'l' (by decide)
      have e : init ++ [last] ++ [['.', '.']] ++ ["dist".data, "index.html".data]
          = init ++ [last] ++ [['.', '.'], "dist".data, "index.html".data] := by simp
      rw [e] at hl
      rw [List.getLast?_cons, hl]
      simp
    · rw [hsplit, hnorm]
      exact joinSlash_snoc_ne_nil _ _ _

/-! ## The claims -/

/-- C1. When the host reports the application as not packaged, every content
load of a run, performed or pending, is `loadURL "http://localhost:5173"`, no
`loadFile` is issued, and once the bootstrap has run the loads performed are
exactly that one URL load and the window holds that URL as its content. -/
theorem development_loads_dev_server (h : Host) (hdev : h.isPackaged = false)
    (es : List Event) (st : State) (hrun : run h es = some st) :
    (∀ c ∈ st.log ++ st.pending, c.isLoad = true → c = Call.loadURL "http://localhost:5173") ∧
    (∀ p, Call.loadFile p ∉ st.log ++ st.pending) ∧
    (Event.signal Signal.runtimeReady ∈ es → st.pending = [] →
      st.log.filter Call.isLoad = [Call.loadURL "http://localhost:5173"] ∧
      ∃ w, st.mainWindow = some w ∧
        w.content = some (ContentSource.url "http://localhost:5173")) := by
  have hmem := mem_trace h es st hrun
  rw [loadCall_dev h hdev] at hmem
  refine ⟨?_, ?_, ?_⟩
  · intro c hc hl
    rcases hmem c hc with rfl | rfl | rfl | rfl | rfl <;> first | rfl | cases hl
  · intro p hp
    rcases hmem _ hp with hc | hc | hc | hc | hc <;> cases hc
  · intro hes hpend
    rw [run_idle h es st hrun hes hpend, filter_isLoad_idle, loadCall_dev h hdev]
    exact ⟨rfl, _, rfl, by simp [bootedWindow, contentSource_dev h hdev]⟩

/-- C1 on the example host: a development run through the bootstrap and one
`ready-to-show`. -/
theorem development_loads_dev_server_witness :
    (exampleHost false).isPackaged = false ∧
    run (exampleHost false) (bootEvents ++ [Event.signal readyToShow, Event.tick, Event.tick])
      = some (stateOf (exampleHost false) (Phase.idle 1)) ∧
    (stateOf (exampleHost false) (Phase.idle 1)).log.filter Call.isLoad
      = [Call.loadURL "http://localhost:5173"] :=
  ⟨rfl, rfl,
    ((development_loads_dev_server (exampleHost false) rfl
      (bootEvents ++ [Event.signal readyToShow, Event.tick, Event.tick])
      (stateOf (exampleHost false) (Phase.idle 1)) rfl).2.2 (by decide) rfl).1⟩

/-- C2. When the host reports the application as packaged, for every script
directory and every `path.join` of the host, every content load of a run,
performed or pending, is `loadFile` of the join of the script directory,
`..`, `dist` and `index.html`, no `loadURL` is issued, and once the bootstrap
has run the loads performed are exactly that one file load and the window
holds that file as its content.  On a host with POSIX paths whose script
directory is an absolute normalised path, the join is the parent of the
script directory followed by `dist/index.html`. -/
theorem packaged_loads_bundle (h : Host) (hpk : h.isPackaged = true)
    (es : List Event) (st : State) (hrun : run h es = some st) :
    (∀ c ∈ st.log ++ st.pending, c.isLoad = true →
      c = Call.loadFile (h.join [h.dirname, "..", "dist", "index.html"])) ∧
    (∀ u, Call.loadURL u ∉ st.log ++ st.pending) ∧
    (Event.signal Signal.runtimeReady ∈ es → st.pending = [] →
      st.log.filter Call.isLoad
        = [Call.loadFile (h.join [h.dirname, "..", "dist", "index.html"])] ∧
      ∃ w, st.mainWindow = some w ∧
        w.content = some (ContentSource.file (h.join [h.dirname, "..", "dist", "index.html"]))) ∧
    (∀ segs, (∀ seg ∈ segs, PlainSegment seg) → h.join = posixJoin →
      h.dirname = absolutePath segs →
      h.join [h.dirname, "..", "dist", "index.html"]
        = absolutePath (segs.dropLast ++ ["dist".data, "index.html".data])) := by
  have hmem := mem_trace h es st hrun
  rw [loadCall_packaged h hpk] at hmem
  refine ⟨?_, ?_, ?_, ?_⟩
  rotate_left 3
  · intro segs hsegs hj hd
    rw [hj, hd]
    exact posixJoin_parent segs hsegs
  · intro c hc hl
    rcases hmem c hc with rfl | rfl | rfl | rfl | rfl <;> first | rfl | cases hl
  · intro u hu
    rcases hmem _ hu with hc | hc | hc | hc | hc <;> cases hc
  · intro hes hpend
    rw [run_idle h es st hrun hes hpend, filter_isLoad_idle, loadCall_packaged h hpk]
    exact ⟨rfl, _, rfl, by simp [bootedWindow, contentSource_packaged h hpk]⟩

/-- C2 on the example host: with script directory `/opt/app/main` and POSIX
paths the file loaded is `/opt/app/dist/index.html`. -/
theorem packaged_loads_bundle_witness :
    (exampleHost true).isPackaged = true ∧
    run (exampleHost true) bootEvents = some (stateOf (exampleHost true) (Phase.idle 0)) ∧
    (exampleHost true).join [(exampleHost true).dirname, "..", "dist", "index.html"]
      = "/opt/app/dist/index.html" ∧
    (stateOf (exampleHost true) (Phase.idle 0)).log.filter Call.isLoad
      = [Call.loadFile
          ((exampleHost true).join [(exampleHost true).dirname, "..", "dist", "index.html"])] ∧
    (exampleHost true).dirname = absolutePath ["opt".data, "app".data, "main".data] ∧
    (exampleHost true).join [(exampleHost true).dirname, "..", "dist", "index.html"]
      = absolutePath (["opt".data, "app".data, "main".data].dropLast
          ++ ["dist".data, "index.html".data]) :=
  ⟨rfl, rfl, by decide,
    ((packaged_loads_bundle (exampleHost true) rfl bootEvents
      (stateOf (exampleHost true) (Phase.idle 0)) rfl).2.2.1 (by decide) rfl).1,
    by decide,
    (packaged_loads_bundle (exampleHost true) rfl bootEvents
      (stateOf (exampleHost true) (Phase.idle 0)) rfl).2.2.2
      ["opt".data, "app".data, "main".data] (by decide) rfl (by decide)⟩

/-- C3. In every state a run reaches, if no `ready-to-show` signal has been
delivered to the window then the window is not displayed and no `show()` has
been performed or is pending; every window is constructed with `show: false`
and is not displayed when created; the readiness callback contains no
`show()`, and the `show()` calls of a run are as many as the `ready-to-show`
signals delivered to the window. -/
theorem hidden_until_ready_to_show (h : Host) (es : List Event) (st : State)
    (hrun : run h es = some st) :
    (deliveries es = 0 →
      (∀ w, st.mainWindow = some w → w.visible = false) ∧
      Call.showWindow ∉ st.log ++ st.pending) ∧
    (∀ opts, Call.newBrowserWindow opts ∈ st.log ++ st.pending →
      opts.show_ = false ∧ (Window.create opts).visible = false) ∧
    Call.showWindow ∉ whenReadyCallback h ∧
    (st.log ++ st.pending).count Call.showWindow = deliveries es := by
  refine ⟨?_, ?_, ?_, (count_trace h es st hrun).2⟩
  · intro hno
    constructor
    · intro w hw
      obtain ⟨p, hp, rfl⟩ := run_phase h es st hrun
      obtain ⟨-, h2⟩ := nextRun_start es p hp
      cases hv : w.visible with
      | false => rfl
      | true =>
        have := (visible_stateOf h p w hw hv).1
        omega
    · rw [← List.count_eq_zero, (count_trace h es st hrun).2, hno]
  · intro opts hopts
    rcases mem_trace h es st hrun _ hopts with hc | hc | hc | hc | hc
    · cases hc
      exact ⟨rfl, rfl⟩
    · exfalso
      unfold loadCall at hc
      split at hc <;> cases hc
    all_goals cases hc
  · unfold whenReadyCallback loadCall
    split <;> simp

/-- C3 on the example host: a run in which `ready-to-show` arrives only before
the runtime is ready, when there is no window to deliver it to. -/
theorem hidden_until_ready_to_show_witness :
    run (exampleHost true) (Event.signal readyToShow :: bootEvents)
      = some (stateOf (exampleHost true) (Phase.idle 0)) ∧
    deliveries (Event.signal readyToShow :: bootEvents) = 0 ∧
    (∀ w, (stateOf (exampleHost true) (Phase.idle 0)).mainWindow = some w → w.visible = false) ∧
    Call.showWindow ∉ (stateOf (exampleHost true) (Phase.idle 0)).log
      ++ (stateOf (exampleHost true) (Phase.idle 0)).pending :=
  ⟨rfl, rfl,
    (hidden_until_ready_to_show (exampleHost true) (Event.signal readyToShow :: bootEvents)
      (stateOf (exampleHost true) (Phase.idle 0)) rfl).1 rfl⟩

/-- C4 as stated fails: after the bootstrap, a run with two `ready-to-show`
signals performs `maximize()` twice and `show()` twice, since the listener is
registered with `on` and runs at every delivery. -/
theorem maximize_show_twice :
    run (exampleHost false)
        (bootEvents ++ [Event.signal readyToShow, Event.tick, Event.tick,
          Event.signal readyToShow, Event.tick, Event.tick])
      = some (stateOf (exampleHost false) (Phase.idle 2)) ∧
    Event.signal readyToShow ∈ [Event.signal readyToShow, Event.tick, Event.tick,
      Event.signal readyToShow, Event.tick, Event.tick] ∧
    (stateOf (exampleHost false) (Phase.idle 2)).pending = [] ∧
    (stateOf (exampleHost false) (Phase.idle 2)).log.count Call.maximize = 2 ∧
    (stateOf (exampleHost false) (Phase.idle 2)).log.count Call.showWindow = 2 := by
  refine ⟨rfl, ?_, rfl, ?_, ?_⟩ <;> decide

/-- C4, amended. For every sequence of events after the bootstrap that ends
with no callback running, `maximize()` and `show()` have each been performed
once for every `ready-to-show` signal of the sequence, and if the sequence
contains such a signal the window is maximized and displayed. -/
theorem maximize_show_per_signal (h : Host) (es : List Event) (st : State)
    (hrun : run h (bootEvents ++ es) = some st) (hpend : st.pending = []) :
    st.log.count Call.maximize = es.count (Event.signal readyToShow) ∧
    st.log.count Call.showWindow = es.count (Event.signal readyToShow) ∧
    (Event.signal readyToShow ∈ es →
      ∃ w, st.mainWindow = some w ∧ w.maximized = true ∧ w.visible = true) := by
  have hc := count_trace h _ st hrun
  rw [hpend, List.append_nil, deliveries_bootEvents_append] at hc
  refine ⟨hc.1, hc.2, ?_⟩
  intro hmem
  have hpos : 0 < es.count (Event.signal readyToShow) := List.count_pos_iff.2 hmem
  have hst := run_idle h _ st hrun (ready_mem_bootEvents_append es) hpend
  rw [deliveries_bootEvents_append] at hst
  subst hst
  exact ⟨_, rfl, by simp [bootedWindow, hpos], by simp [bootedWindow, hpos]⟩

/-- C4, amended, on the example host: one `ready-to-show` signal, one
`maximize()` and one `show()`. -/
theorem maximize_show_per_signal_witness :
    run (exampleHost false) (bootEvents ++ [Event.signal readyToShow, Event.tick, Event.tick])
      = some (stateOf (exampleHost false) (Phase.idle 1)) ∧
    (stateOf (exampleHost false) (Phase.idle 1)).pending = [] ∧
    (stateOf (exampleHost false) (Phase.idle 1)).log.count Call.maximize
      = [Event.signal readyToShow, Event.tick, Event.tick].count (Event.signal readyToShow) ∧
    [Event.signal readyToShow, Event.tick, Event.tick].count (Event.signal readyToShow) = 1 :=
  ⟨rfl, rfl,
    (maximize_show_per_signal (exampleHost false)
      [Event.signal readyToShow, Event.tick, Event.tick]
      (stateOf (exampleHost false) (Phase.idle 1)) rfl rfl).1, by decide⟩

/-- C10. In every state a run reaches, a displayed window is maximized, and
in the calls performed every `show()` comes directly after a `maximize()`. -/
theorem visible_implies_maximized (h : Host) (es : List Event) (st : State)
    (hrun : run h es = some st) :
    (∀ w, st.mainWindow = some w → w.visible = true → w.maximized = true) ∧
    (∀ pre post, st.log = pre ++ Call.showWindow :: post →
      ∃ pre', pre = pre' ++ [Call.maximize]) := by
  obtain ⟨p, -, rfl⟩ := run_phase h es st hrun
  exact ⟨fun w hw hv => (visible_stateOf h p w hw hv).2, showAfterMaximize_stateOf h p⟩

/-- C10 on the example host, between `maximize()` and `show()`: this host
displays a window when it maximizes it, and the window is maximized. -/
theorem visible_implies_maximized_witness :
    run (exampleHost true) (bootEvents ++ [Event.signal readyToShow, Event.tick])
      = some (stateOf (exampleHost true) (Phase.showing 0)) ∧
    (stateOf (exampleHost true) (Phase.showing 0)).mainWindow
      = some (bootedWindow (exampleHost true) true true) ∧
    (bootedWindow (exampleHost true) true true).visible = true ∧
    (bootedWindow (exampleHost true) true true).maximized = true :=
  ⟨rfl, rfl, rfl,
    (visible_implies_maximized (exampleHost true)
      (bootEvents ++ [Event.signal readyToShow, Event.tick])
      (stateOf (exampleHost true) (Phase.showing 0)) rfl).1 _ rfl rfl⟩

/-- C5. In every run, for every packaging state, every window construction
passes width 1000, height 680, minWidth 810, minHeight 600 and maximizable
true; these initial dimensions are not below the minimum ones; the options
leave the window resizable (they have no `resizable` key, which the host reads
as resizable); the window bound to `mainWindow` carries these options; and
once runtime readiness is delivered the construction is among the calls. -/
theorem window_geometry (h : Host) (es : List Event) (st : State) (hrun : run h es = some st) :
    (∀ opts, Call.newBrowserWindow opts ∈ st.log ++ st.pending →
      opts.width = 1000 ∧ opts.height = 680 ∧ opts.minWidth = 810 ∧ opts.minHeight = 600 ∧
      opts.maximizable = true ∧ opts.minWidth ≤ opts.width ∧ opts.minHeight ≤ opts.height ∧
      opts.isResizable = true) ∧
    (∀ w, st.mainWindow = some w →
      w.options.width = 1000 ∧ w.options.height = 680 ∧ w.options.minWidth = 810 ∧
      w.options.minHeight = 600 ∧ w.options.maximizable = true ∧
      w.options.isResizable = true) ∧
    (Event.signal Signal.runtimeReady ∈ es →
      ∃ opts, Call.newBrowserWindow opts ∈ st.log ++ st.pending) := by
  refine ⟨?_, ?_, ?_⟩
  · intro opts hopts
    rw [new_mem_trace h es st hrun opts hopts]
    decide
  · intro w hw
    obtain ⟨p, -, rfl⟩ := run_phase h es st hrun
    rw [options_stateOf h p w hw]
    decide
  · intro hes
    rw [run_trace h es st hrun hes]
    exact ⟨browserWindowOptions, by simp [whenReadyCallback]⟩

/-- C5 on the example hosts: the construction performed by the bootstrap, in a
packaged and in a development run. -/
theorem window_geometry_witness :
    (run (exampleHost true) bootEvents = some (stateOf (exampleHost true) (Phase.idle 0)) ∧
      ∃ opts, Call.newBrowserWindow opts ∈ (stateOf (exampleHost true) (Phase.idle 0)).log
        ++ (stateOf (exampleHost true) (Phase.idle 0)).pending) ∧
    (run (exampleHost false) bootEvents = some (stateOf (exampleHost false) (Phase.idle 0)) ∧
      ∀ w, (stateOf (exampleHost false) (Phase.idle 0)).mainWindow = some w →
        w.options.width = 1000 ∧ w.options.height = 680 ∧ w.options.minWidth = 810 ∧
        w.options.minHeight = 600 ∧ w.options.maximizable = true ∧
        w.options.isResizable = true) :=
  ⟨⟨rfl, (window_geometry (exampleHost true) bootEvents
      (stateOf (exampleHost true) (Phase.idle 0)) rfl).2.2 (by decide)⟩,
    ⟨rfl, (window_geometry (exampleHost false) bootEvents
      (stateOf (exampleHost false) (Phase.idle 0)) rfl).2.1⟩⟩

/-- C6. In every run, for every packaging state, every window construction
passes `webPreferences` with sandbox, webSecurity and contextIsolation false
and nodeIntegration and nodeIntegrationInWorker true, and the window bound to
`mainWindow` carries these preferences. -/
theorem isolation_disabled (h : Host) (es : List Event) (st : State) (hrun : run h es = some st) :
    (∀ opts, Call.newBrowserWindow opts ∈ st.log ++ st.pending →
      opts.webPreferences.sandbox = false ∧ opts.webPreferences.webSecurity = false ∧
      opts.webPreferences.contextIsolation = false ∧
      opts.webPreferences.nodeIntegration = true ∧
      opts.webPreferences.nodeIntegrationInWorker = true) ∧
    (∀ w, st.mainWindow = some w →
      w.options.webPreferences.sandbox = false ∧ w.options.webPreferences.webSecurity = false ∧
      w.options.webPreferences.contextIsolation = false ∧
      w.options.webPreferences.nodeIntegration = true ∧
      w.options.webPreferences.nodeIntegrationInWorker = true) := by
  refine ⟨?_, ?_⟩
  · intro opts hopts
    rw [new_mem_trace h es st hrun opts hopts]
    decide
  · intro w hw
    obtain ⟨p, -, rfl⟩ := run_phase h es st hrun
    rw [options_stateOf h p w hw]
    decide

/-- C6 on the example hosts: the preferences of the window after the
bootstrap, in a packaged and in a development run. -/
theorem isolation_disabled_witness :
    (run (exampleHost true) bootEvents = some (stateOf (exampleHost true) (Phase.idle 0)) ∧
      (stateOf (exampleHost true) (Phase.idle 0)).mainWindow
        = some (bootedWindow (exampleHost true) false false) ∧
      (bootedWindow (exampleHost true) false false).options.webPreferences.sandbox = false) ∧
    (run (exampleHost false) bootEvents = some (stateOf (exampleHost false) (Phase.idle 0)) ∧
      (stateOf (exampleHost false) (Phase.idle 0)).mainWindow
        = some (bootedWindow (exampleHost false) false false) ∧
      (bootedWindow (exampleHost false) false false).options.webPreferences.nodeIntegration
        = true) :=
  ⟨⟨rfl, rfl, ((isolation_disabled (exampleHost true) bootEvents
      (stateOf (exampleHost true) (Phase.idle 0)) rfl).2 _ rfl).1⟩,
    ⟨rfl, rfl, ((isolation_disabled (exampleHost false) bootEvents
      (stateOf (exampleHost false) (Phase.idle 0)) rfl).2 _ rfl).2.2.2.1⟩⟩

/-- C7. In every run: before runtime readiness is delivered there is no
window and no call has been performed or scheduled; once it is delivered,
however many times, exactly one construction is performed or pending; and as
soon as any call has been performed, exactly one construction has been
performed and `mainWindow` is bound. -/
theorem single_window_on_readiness (h : Host) (es : List Event) (st : State)
    (hrun : run h es = some st) :
    (Event.signal Signal.runtimeReady ∉ es →
      st.mainWindow = none ∧ st.log = [] ∧ st.pending = []) ∧
    (Event.signal Signal.runtimeReady ∈ es →
      (st.log ++ st.pending).countP Call.isNew = 1) ∧
    (st.log ≠ [] → st.log.countP Call.isNew = 1 ∧ ∃ w, st.mainWindow = some w) := by
  refine ⟨?_, ?_, ?_⟩
  · intro hes
    rw [run_before_ready h es st hrun hes]
    exact ⟨rfl, rfl, rfl⟩
  · intro hes
    rw [countP_trace h es st hrun hes _ rfl rfl]
    exact (countP_whenReadyCallback h).1
  · intro hl
    obtain ⟨p, -, rfl⟩ := run_phase h es st hrun
    exact countP_isNew_log h p hl

/-- C7 on the example host: no window while only other signals have arrived,
and one construction although runtime readiness is delivered twice. -/
theorem single_window_on_readiness_witness :
    (run (exampleHost true) [Event.signal readyToShow, Event.signal (Signal.loadSettled false)]
        = some State.start ∧
      Event.signal Signal.runtimeReady
        ∉ [Event.signal readyToShow, Event.signal (Signal.loadSettled false)] ∧
      State.start.mainWindow = none ∧ State.start.log = [] ∧ State.start.pending = []) ∧
    (run (exampleHost true) (bootEvents ++ [Event.signal Signal.runtimeReady])
        = some (stateOf (exampleHost true) (Phase.idle 0)) ∧
      ((stateOf (exampleHost true) (Phase.idle 0)).log
        ++ (stateOf (exampleHost true) (Phase.idle 0)).pending).countP Call.isNew = 1) :=
  ⟨⟨rfl, by decide,
      (single_window_on_readiness (exampleHost true)
        [Event.signal readyToShow, Event.signal (Signal.loadSettled false)]
        State.start rfl).1 (by decide)⟩,
    ⟨rfl,
      (single_window_on_readiness (exampleHost true)
        (bootEvents ++ [Event.signal Signal.runtimeReady])
        (stateOf (exampleHost true) (Phase.idle 0)) rfl).2.1 (by decide)⟩⟩

/-- C8. In every run, whatever signals arrive and whatever the outcome of the
load: at most one content load is performed or pending; once runtime
readiness is delivered there is exactly one, a `loadURL` or a `loadFile` and
not both, together with the registration of the `ready-to-show` listener;
once the bootstrap has finished the load and the registration have been
performed and the window has the listener; and the settling of the load,
successful or failed, changes nothing and starts no call. -/
theorem single_load_no_retry (h : Host) (es : List Event) (st : State)
    (hrun : run h es = some st) :
    (st.log ++ st.pending).countP Call.isLoad ≤ 1 ∧
    (Event.signal Signal.runtimeReady ∈ es →
      (st.log ++ st.pending).countP Call.isLoad = 1 ∧
      (st.log ++ st.pending).countP Call.isLoadURL
        + (st.log ++ st.pending).countP Call.isLoadFile = 1 ∧
      Call.on "ready-to-show" ∈ st.log ++ st.pending) ∧
    (Event.signal Signal.runtimeReady ∈ es → st.pending = [] →
      st.log.countP Call.isLoad = 1 ∧ Call.on "ready-to-show" ∈ st.log ∧
      ∃ w, st.mainWindow = some w ∧ w.listeners = ["ready-to-show"]) ∧
    (∀ ok, st.pending = [] → step h st (Event.signal (Signal.loadSettled ok)) = some st) := by
  have hready : Event.signal Signal.runtimeReady ∈ es →
      (st.log ++ st.pending).countP Call.isLoad = 1 ∧
      (st.log ++ st.pending).countP Call.isLoadURL
        + (st.log ++ st.pending).countP Call.isLoadFile = 1 ∧
      Call.on "ready-to-show" ∈ st.log ++ st.pending := by
    intro hes
    rw [countP_trace h es st hrun hes _ rfl rfl, countP_trace h es st hrun hes _ rfl rfl,
      countP_trace h es st hrun hes _ rfl rfl, run_trace h es st hrun hes]
    exact ⟨(countP_whenReadyCallback h).2.1, (countP_whenReadyCallback h).2.2,
      by simp [whenReadyCallback]⟩
  refine ⟨?_, hready, ?_, ?_⟩
  · by_cases hes : Event.signal Signal.runtimeReady ∈ es
    · exact le_of_eq (hready hes).1
    · rw [run_before_ready h es st hrun hes]
      decide
  · intro hes hpend
    obtain ⟨h1, -, h3⟩ := hready hes
    rw [hpend, List.append_nil] at h1 h3
    refine ⟨h1, h3, ?_⟩
    rw [run_idle h es st hrun hes hpend]
    exact ⟨_, rfl, rfl⟩
  · intro ok hpend
    simp [step, hpend, deliver]

/-- C8 on the example host: the development server does not answer, the load
fails, and the run still holds one load and the registered listener. -/
theorem single_load_no_retry_witness :
    run (exampleHost false) (bootEvents ++ [Event.signal (Signal.loadSettled false)])
      = some (stateOf (exampleHost false) (Phase.idle 0)) ∧
    (stateOf (exampleHost false) (Phase.idle 0)).pending = [] ∧
    (stateOf (exampleHost false) (Phase.idle 0)).log.countP Call.isLoad = 1 ∧
    Call.on "ready-to-show" ∈ (stateOf (exampleHost false) (Phase.idle 0)).log ∧
    ∃ w, (stateOf (exampleHost false) (Phase.idle 0)).mainWindow = some w ∧
      w.listeners = ["ready-to-show"] :=
  ⟨rfl, rfl,
    (single_load_no_retry (exampleHost false)
      (bootEvents ++ [Event.signal (Signal.loadSettled false)])
      (stateOf (exampleHost false) (Phase.idle 0)) rfl).2.2.1 (by decide) rfl⟩

/-- C9. The options passed to the window constructor, and the options of the
window, are the same in any two runs on any two hosts, so in a packaged and a
development run; and on the same events two hosts that differ in packaging
state, script directory or `path.join` reach states that agree in everything
but the content source: the readiness flag, the window apart from its
content, and the calls pending and performed with the loads hidden. -/
theorem options_independent_of_packaging (h1 h2 : Host) :
    (∀ es1 es2 st1 st2, run h1 es1 = some st1 → run h2 es2 = some st2 →
      (∀ o1 o2, Call.newBrowserWindow o1 ∈ st1.log ++ st1.pending →
        Call.newBrowserWindow o2 ∈ st2.log ++ st2.pending → o1 = o2) ∧
      (∀ w1 w2, st1.mainWindow = some w1 → st2.mainWindow = some w2 →
        w1.options = w2.options)) ∧
    (h1.maximizeShows = h2.maximizeShows →
      ∀ es, (run h1 es).map State.hideContent = (run h2 es).map State.hideContent) := by
  refine ⟨?_, ?_⟩
  · intro es1 es2 st1 st2 hrun1 hrun2
    refine ⟨?_, ?_⟩
    · intro o1 o2 ho1 ho2
      rw [new_mem_trace h1 es1 st1 hrun1 o1 ho1, new_mem_trace h2 es2 st2 hrun2 o2 ho2]
    · intro w1 w2 hw1 hw2
      obtain ⟨p1, -, rfl⟩ := run_phase h1 es1 st1 hrun1
      obtain ⟨p2, -, rfl⟩ := run_phase h2 es2 st2 hrun2
      rw [options_stateOf h1 p1 w1 hw1, options_stateOf h2 p2 w2 hw2]
  · intro hm es
    have e1 := runFrom_stateOf h1 es Phase.start
    have e2 := runFrom_stateOf h2 es Phase.start
    change run h1 es = _ at e1
    change run h2 es = _ at e2
    rw [e1, e2]
    cases nextRun Phase.start es with
    | none => rfl
    | some p => simpa using hideContent_stateOf h1 h2 hm p

/-- C9 on the example hosts, one packaged and one not: after the bootstrap and
a `ready-to-show` the two windows have the same options. -/
theorem options_independent_of_packaging_witness :
    run (exampleHost true) bootEvents = some (stateOf (exampleHost true) (Phase.idle 0)) ∧
    run (exampleHost false) (bootEvents ++ [Event.signal readyToShow, Event.tick, Event.tick])
      = some (stateOf (exampleHost false) (Phase.idle 1)) ∧
    (bootedWindow (exampleHost true) false false).options
      = (bootedWindow (exampleHost false) true true).options ∧
    (run (exampleHost true) bootEvents).map State.hideContent
      = (run (exampleHost false) bootEvents).map State.hideContent :=
  ⟨rfl, rfl,
    ((options_independent_of_packaging (exampleHost true) (exampleHost false)).1
      bootEvents (bootEvents ++ [Event.signal readyToShow, Event.tick, Event.tick])
      (stateOf (exampleHost true) (Phase.idle 0))
      (stateOf (exampleHost false) (Phase.idle 1)) rfl rfl).2 _ _ rfl rfl,
    (options_independent_of_packaging (exampleHost true) (exampleHost false)).2 rfl bootEvents⟩

end CameraSettings
